import Mathlib

/-!  Shallow embedding of `src/utils/pascal/pascal_utils.py`.

`convert_annotations_to_df` (the PASCAL-VOC annotation flattener),
`clamp_bbox_coordinates` (the bounding-box clamp helper) and the
`PascalDataset` accessor (`__len__`, `__getitem__`) are translated from
the Python source.  Python floats are modelled as rationals: the code
only compares and ring-combines coordinate values, operations that are
exact on the rationals.  Library calls are modelled by their documented
list-level semantics: `glob` plus `ElementTree` parsing becomes a list
of `XmlDoc` values, `pandas` dataframes become lists of row structures,
`sklearn.LabelEncoder` becomes the sorted list of seen class names with
positional lookup, and `numpy.unique` / `pandas.Series.unique` become
the corresponding list functions.  The caller-supplied albumentations
transform and the image reader are arbitrary function parameters.
Failure (a Python exception) is `Option.none`. -/

/-- One child element of a document's `size` element: its tag and the
integer value of its text (`int(elem.text)`). -/
structure SizeChild where
  tag : String
  text : Int
deriving DecidableEq

/-- One `object` element of a PASCAL-VOC document: the class name and
the four `bndbox` corners. -/
structure XmlObject where
  name : String
  xmin : Int
  ymin : Int
  xmax : Int
  ymax : Int
deriving DecidableEq

/-- One parsed XML document of the directory being flattened. -/
structure XmlDoc where
  filename : String
  sizeChildren : List SizeChild
  objects : List XmlObject
deriving DecidableEq

/-- One row of the flattened table (columns filename, width, height,
class, xmin, ymin, xmax, ymax). -/
structure AnnRow where
  filename : String
  width : Int
  height : Int
  className : String
  xmin : Int
  ymin : Int
  xmax : Int
  ymax : Int
deriving DecidableEq

/-- Left-to-right effectful map over `Option`, written out explicitly;
the whole computation fails as soon as one element fails. -/
def traverseOption {α β : Type} (f : α → Option β) : List α → Option (List β)
  | [] => some []
  | x :: xs =>
    match f x with
    | none => none
    | some y =>
      match traverseOption f xs with
      | none => none
      | some ys => some (y :: ys)

/-- The rows one document contributes: one row per `object` entry, each
reading the document-level `filename` and, positionally, the first and
second child of the `size` element (`root.find("size")[0]` and
`root.find("size")[1]`).  A document with a malformed `size` element
only fails if it has at least one object, because the access happens
inside the object loop. -/
def docRows (doc : XmlDoc) : Option (List AnnRow) :=
  traverseOption (fun m =>
    match doc.sizeChildren[0]? with
    | none => none
    | some w =>
      match doc.sizeChildren[1]? with
      | none => none
      | some h =>
        some { filename := doc.filename, width := w.text, height := h.text,
               className := m.name, xmin := m.xmin, ymin := m.ymin,
               xmax := m.xmax, ymax := m.ymax }) doc.objects

/-- `xml_list`: the rows of all documents, in directory order. -/
def xml_list (docs : List XmlDoc) : Option (List AnnRow) :=
  (traverseOption docRows docs).map List.flatten

/-- Model of `os.path.join(image_dir, filename)` for a relative
filename. -/
def osPathJoin (dir file : String) : String := dir ++ "/" ++ file

/-- The per-row filename resolution
`xml_df["filename"] = [os.path.join(image_dir, ...)]`. -/
def joinRow (image_dir : String) (r : AnnRow) : AnnRow :=
  { r with filename := osPathJoin image_dir r.filename }

/-- Codepoint-wise lexicographic order on character lists, the order
`numpy.unique` sorts strings by. -/
def charListLe : List Char → List Char → Bool
  | [], _ => true
  | _ :: _, [] => false
  | a :: as, b :: bs =>
    if a.toNat < b.toNat then true
    else if b.toNat < a.toNat then false
    else charListLe as bs

/-- Lexicographic order on strings. -/
def strLe (a b : String) : Bool := charListLe a.data b.data

/-- Insert a string into a sorted list of strings. -/
def insertSorted (x : String) : List String → List String
  | [] => [x]
  | y :: ys => if strLe x y then x :: y :: ys else y :: insertSorted x ys

/-- Insertion sort of a list of strings. -/
def sortStrings (l : List String) : List String := l.foldr insertSorted []

/-- `numpy.unique`: the sorted list of distinct values.  This is the
`classes_` state that `sklearn.LabelEncoder.fit` stores. -/
def npUnique (l : List String) : List String := sortStrings l.dedup

/-- The process-wide `encoder` state: the class list learned by `fit`. -/
structure EncoderState where
  classes : List String
deriving DecidableEq

/-- `LabelEncoder.transform` of one value: the position of the value in
the fitted class list, failing (a `ValueError` in sklearn) when the
value was never seen during `fit`. -/
def leLookup : List String → String → Option Nat
  | [], _ => none
  | a :: as, c => if a = c then some 0 else (leLookup as c).map (· + 1)

/-- The flattened table: the eight fixed columns plus the optional
`labels` column, present only for the train/val/test splits. -/
structure AnnTable where
  rows : List AnnRow
  labels : Option (List Nat)
deriving DecidableEq

/-- `convert_annotations_to_df`: parse every document, flatten to one
row per object, resolve filenames against `image_dir`, then attach the
`labels` column: refit the encoder and transform for `"train"`, reuse
the given encoder state for `"val"`/`"test"` (failing on an unseen
class), and leave the column out for any other split.  The returned
encoder state models the module-level `encoder` after the call. -/
def convert_annotations_to_df (docs : List XmlDoc) (image_dir : String)
    (image_set : String) (enc : EncoderState) : Option (AnnTable × EncoderState) :=
  match xml_list docs with
  | none => none
  | some raw =>
    if image_set = "train" then
      match traverseOption
          (fun r => leLookup (npUnique ((raw.map (joinRow image_dir)).map AnnRow.className)) r.className)
          (raw.map (joinRow image_dir)) with
      | none => none
      | some ords =>
        some ({ rows := raw.map (joinRow image_dir), labels := some (ords.map (· + 1)) },
              ⟨npUnique ((raw.map (joinRow image_dir)).map AnnRow.className)⟩)
    else if image_set = "val" ∨ image_set = "test" then
      match traverseOption (fun r => leLookup enc.classes r.className) (raw.map (joinRow image_dir)) with
      | none => none
      | some ords =>
        some ({ rows := raw.map (joinRow image_dir), labels := some (ords.map (· + 1)) }, enc)
    else
      some ({ rows := raw.map (joinRow image_dir), labels := none }, enc)

/-- The rows `docRows` produces when the first two children of the
document's `size` element are `w` and `h` (a helper used only to state
theorems compactly). -/
def docRowsMap (doc : XmlDoc) (w h : SizeChild) : List AnnRow :=
  doc.objects.map (fun m =>
    { filename := doc.filename, width := w.text, height := h.text,
      className := m.name, xmin := m.xmin, ymin := m.ymin,
      xmax := m.xmax, ymax := m.ymax })

/-- A bounding box as four pixel coordinates of a table row or of a
transform output, in the column order xmin, ymin, xmax, ymax. -/
structure Box4 where
  xmin : ℚ
  ymin : ℚ
  xmax : ℚ
  ymax : ℚ
deriving DecidableEq

/-- A Python box tuple as handled by `clamp_bbox_coordinates`: four
coordinates, optionally followed by a class id (`len(bbox) == 4` picks
the first branch, otherwise the tuple is destructured into five). -/
inductive PyBox : Type where
  | four : ℚ → ℚ → ℚ → ℚ → PyBox
  | five : ℚ → ℚ → ℚ → ℚ → ℚ → PyBox
deriving DecidableEq

/-- The four coordinate values of a box tuple. -/
def PyBox.coords : PyBox → List ℚ
  | .four a b c d => [a, b, c, d]
  | .five a b c d _ => [a, b, c, d]

/-- The optional trailing class id of a box tuple. -/
def PyBox.classId? : PyBox → Option ℚ
  | .four _ _ _ _ => none
  | .five _ _ _ _ e => some e

/-- The Python `len` of the tuple (4 or 5). -/
def PyBox.pyLen : PyBox → Nat
  | .four _ _ _ _ => 4
  | .five _ _ _ _ _ => 5

/-- `max(0, min(v, 1))`. -/
def clamp01 (v : ℚ) : ℚ := max 0 (min v 1)

/-- Clamp the four coordinates of one box tuple, leaving a trailing
class id untouched. -/
def clampBox : PyBox → PyBox
  | .four a b c d => .four (clamp01 a) (clamp01 b) (clamp01 c) (clamp01 d)
  | .five a b c d e => .five (clamp01 a) (clamp01 b) (clamp01 c) (clamp01 d) e

/-- `clamp_bbox_coordinates`: clamp every box of the sequence. -/
def clamp_bbox_coordinates (bboxes : List PyBox) : List PyBox :=
  bboxes.map clampBox

/-- `is_bbox_valid`: all four coordinates lie in `[0, 1]`. -/
def is_bbox_valid (b : Box4) : Bool :=
  decide (0 ≤ b.xmin ∧ b.xmin ≤ 1 ∧ 0 ≤ b.ymin ∧ b.ymin ≤ 1
    ∧ 0 ≤ b.xmax ∧ b.xmax ≤ 1 ∧ 0 ≤ b.ymax ∧ b.ymax ≤ 1)

/-- One row of the dataframe backing a `PascalDataset`: the columns
`__getitem__` reads (filename, the four corners and the label). -/
structure DFRow where
  filename : String
  xmin : ℚ
  ymin : ℚ
  xmax : ℚ
  ymax : ℚ
  label : Int
deriving DecidableEq

/-- `pandas.unique` accumulator: keep the first occurrence of each
value. -/
def pdStep (acc : List String) (x : String) : List String :=
  if x ∈ acc then acc else acc ++ [x]

/-- `pandas.Series.unique`: the distinct values in order of first
appearance. -/
def pdUnique (l : List String) : List String := l.foldl pdStep []

/-- The dataset accessor: wraps the flattened table. -/
structure PascalDataset where
  df : List DFRow
deriving DecidableEq

/-- `self.image_ids = self.df["filename"].unique()`. -/
def PascalDataset.image_ids (d : PascalDataset) : List String :=
  pdUnique (d.df.map DFRow.filename)

/-- `__len__`: the number of unique image paths. -/
def PascalDataset.len (d : PascalDataset) : Nat := d.image_ids.length

/-- `records = self.df[self.df["filename"] == image_id]`. -/
def PascalDataset.records (d : PascalDataset) (image_id : String) : List DFRow :=
  d.df.filter (fun r => r.filename == image_id)

/-- `boxes = records[["xmin", "ymin", "xmax", "ymax"]].values`. -/
def recordsBoxes (rs : List DFRow) : List Box4 :=
  rs.map (fun r => ⟨r.xmin, r.ymin, r.xmax, r.ymax⟩)

/-- `area = (boxes[:, 3] - boxes[:, 1]) * (boxes[:, 2] - boxes[:, 0])`,
computed from the raw pixel-space boxes of all records. -/
def recordsArea (rs : List DFRow) : List ℚ :=
  (recordsBoxes rs).map (fun b => (b.ymax - b.ymin) * (b.xmax - b.xmin))

/-- `class_labels = records["labels"].values.tolist()`. -/
def recordsLabels (rs : List DFRow) : List Int := rs.map DFRow.label

/-- `iscrowd = torch.zeros((records.shape[0],))`. -/
def recordsIscrowd (rs : List DFRow) : List Int := List.replicate rs.length 0

/-- `f_boxes`: the raw boxes surviving the `[0, 1]` pre-filter. -/
def preFiltered (rs : List DFRow) : List Box4 :=
  (recordsBoxes rs).filter is_bbox_valid

/-- The `target` dictionary of a sample. -/
structure Target where
  image_id : Int
  boxes : List PyBox
  labels : List Int
  area : List ℚ
  iscrowd : List Int
deriving DecidableEq

/-- The 3-tuple `(image, target, image_idx)` returned for a kept
sample. -/
structure Sample (Img : Type) where
  image : Img
  target : Target
  image_idx : Int
deriving DecidableEq

/-- The result of `__getitem__`: either the `None` skip sentinel or a
sample. -/
inductive GetResult (Img : Type) : Type where
  | skip : GetResult Img
  | ok : Sample Img → GetResult Img
deriving DecidableEq

/-- `__getitem__`.  `imread` stands for `cv2.imread` composed with the
BGR-to-RGB conversion and `tfms` for the albumentations pipeline, both
arbitrary functions here; an out-of-range index (an `IndexError` in
Python) is `Option.none`, distinct from the skip sentinel. -/
def PascalDataset.getItem {Img : Type} (d : PascalDataset) (imread : String → Img)
    (tfms : Img → List Box4 → List Int → Img × List Box4 × List Int)
    (index : Nat) : Option (GetResult Img) :=
  match d.image_ids[index]? with
  | none => none
  | some image_id =>
    let rs := d.records image_id
    let tran := tfms (imread image_id) (preFiltered rs) (recordsLabels rs)
    let filtered_bboxes := tran.2.1.filter is_bbox_valid
    if filtered_bboxes.length ≠ tran.2.1.length then some GetResult.skip
    else
      some (GetResult.ok
        { image := tran.1
          target :=
            { image_id := (index : Int)
              boxes := clamp_bbox_coordinates
                (filtered_bboxes.map (fun b => PyBox.four b.xmin b.ymin b.xmax b.ymax))
              labels := tran.2.2
              area := recordsArea rs
              iscrowd := recordsIscrowd rs }
          image_idx := (index : Int) })

/-- A transform that returns its inputs unchanged. -/
def tfEcho : Unit → List Box4 → List Int → Unit × List Box4 × List Int :=
  fun im bs ls => (im, bs, ls)

/-- A transform that keeps only the first box and echoes the labels. -/
def tfDrop : Unit → List Box4 → List Int → Unit × List Box4 × List Int :=
  fun im bs ls => (im, bs.take 1, ls)

/-- A trivial image reader for `Img := Unit`. -/
def unitRead : String → Unit := fun _ => ()

/-- Concrete dataset: one image with two boxes that already lie in
`[0, 1]`. -/
def dC1 : PascalDataset :=
  ⟨[⟨"a.jpg", 0, 0, 1, 1, 1⟩, ⟨"a.jpg", 0, 0, 1, 1, 2⟩]⟩

/-- Concrete dataset: one image with one pixel-space (invalid) box and
one box inside `[0, 1]`. -/
def dC2 : PascalDataset :=
  ⟨[⟨"a.jpg", 10, 10, 50, 50, 7⟩, ⟨"a.jpg", 0, 0, 1, 1, 8⟩]⟩

/-- The sample `dC2.getItem` produces with the echo transform. -/
def sC2 : Sample Unit :=
  { image := ()
    target :=
      { image_id := 0
        boxes := [PyBox.four 0 0 1 1]
        labels := [7, 8]
        area := [1600, 1]
        iscrowd := [0, 0] }
    image_idx := 0 }

/-- Concrete dataset: one image with the single box (10,10,50,50). -/
def dC7 : PascalDataset := ⟨[⟨"a.jpg", 10, 10, 50, 50, 3⟩]⟩

/-- The sample `dC7.getItem` produces with the echo transform. -/
def sC7 : Sample Unit :=
  { image := ()
    target := { image_id := 0, boxes := [], labels := [3], area := [1600], iscrowd := [0] }
    image_idx := 0 }

/-- Concrete document: two objects, size children (width, height). -/
def docC4 : XmlDoc :=
  ⟨"a.jpg", [⟨"width", 100⟩, ⟨"height", 200⟩],
   [⟨"cat", 10, 10, 50, 50⟩, ⟨"dog", 60, 60, 90, 90⟩]⟩

/-- The table flattening `[docC4]` with split "train" produces. -/
def tC4 : AnnTable :=
  ⟨[⟨"d/a.jpg", 100, 200, "cat", 10, 10, 50, 50⟩,
    ⟨"d/a.jpg", 100, 200, "dog", 60, 60, 90, 90⟩], some [1, 2]⟩

/-- Concrete validation document referencing only the class "cat". -/
def docV5 : XmlDoc :=
  ⟨"b.jpg", [⟨"width", 100⟩, ⟨"height", 200⟩], [⟨"cat", 1, 1, 2, 2⟩]⟩

/-- The table flattening `[docV5]` with split "val" produces. -/
def tV5 : AnnTable :=
  ⟨[⟨"d/b.jpg", 100, 200, "cat", 1, 1, 2, 2⟩], some [1]⟩

/-- Concrete training document with the single class "cat". -/
def docT8 : XmlDoc :=
  ⟨"a.jpg", [⟨"width", 100⟩, ⟨"height", 100⟩], [⟨"cat", 1, 1, 2, 2⟩]⟩

/-- The table flattening `[docT8]` with split "train" produces. -/
def tT8 : AnnTable :=
  ⟨[⟨"d/a.jpg", 100, 100, "cat", 1, 1, 2, 2⟩], some [1]⟩

/-- Concrete validation document referencing the unseen class
"zebra". -/
def docV8 : XmlDoc :=
  ⟨"b.jpg", [⟨"width", 100⟩, ⟨"height", 100⟩], [⟨"zebra", 1, 1, 2, 2⟩]⟩

/-- The raw (unjoined) row of `docV8`. -/
def rawV8 : AnnRow := ⟨"b.jpg", 100, 100, "zebra", 1, 1, 2, 2⟩

/-- Concrete document whose `size` element lists height before
width. -/
def docC10 : XmlDoc :=
  ⟨"a.jpg", [⟨"height", 200⟩, ⟨"width", 100⟩], [⟨"cat", 1, 2, 3, 4⟩]⟩

theorem map_congr_mem {α β : Type} (f g : α → β) :
    ∀ l : List α, (∀ a ∈ l, f a = g a) → l.map f = l.map g := by
  intro l
  induction l with
  | nil => intro _; rfl
  | cons a as ih =>
    intro h
    simp only [List.map_cons]
    rw [h a (List.mem_cons_self a as), ih (fun x hx => h x (List.mem_cons_of_mem a hx))]

theorem traverseOption_length {α β : Type} (f : α → Option β) :
    ∀ (l : List α) (l2 : List β), traverseOption f l = some l2 → l2.length = l.length := by
  intro l
  induction l with
  | nil =>
    intro l2 h
    simp only [traverseOption, Option.some.injEq] at h
    simp [← h]
  | cons a as ih =>
    intro l2 h
    simp only [traverseOption] at h
    cases hfa : f a with
    | none => rw [hfa] at h; exact absurd h (by simp)
    | some y =>
      rw [hfa] at h
      cases has : traverseOption f as with
      | none => rw [has] at h; exact absurd h (by simp)
      | some ys =>
        rw [has] at h
        have h2 : y :: ys = l2 := Option.some.inj h
        rw [← h2]
        simp [ih ys has]

theorem traverseOption_getElem? {α β : Type} (f : α → Option β) :
    ∀ (l : List α) (l2 : List β), traverseOption f l = some l2 →
      ∀ i : Nat, i < l.length →
        ∃ x y, l[i]? = some x ∧ f x = some y ∧ l2[i]? = some y := by
  intro l
  induction l with
  | nil => intro l2 h i hi; exact absurd hi (by simp)
  | cons a as ih =>
    intro l2 h i hi
    simp only [traverseOption] at h
    cases hfa : f a with
    | none => rw [hfa] at h; exact absurd h (by simp)
    | some y =>
      rw [hfa] at h
      cases has : traverseOption f as with
      | none => rw [has] at h; exact absurd h (by simp)
      | some ys =>
        rw [has] at h
        have h2 : y :: ys = l2 := Option.some.inj h
        cases i with
        | zero => exact ⟨a, y, by simp, hfa, by simp [← h2]⟩
        | succ n =>
          have hn : n < as.length := by simpa using hi
          obtain ⟨x, y2, hx, hfx, hy⟩ := ih ys has n hn
          exact ⟨x, y2, by simpa using hx, hfx, by simp [← h2, hy]⟩

theorem traverseOption_eq_none {α β : Type} (f : α → Option β) {x : α} :
    ∀ l : List α, x ∈ l → f x = none → traverseOption f l = none := by
  intro l
  induction l with
  | nil => intro h; exact absurd h (by simp)
  | cons a as ih =>
    intro hmem hfx
    simp only [traverseOption]
    rcases List.mem_cons.mp hmem with h | h
    · rw [← h, hfx]
    · cases hfa : f a with
      | none => rfl
      | some y => rw [ih h hfx]

theorem traverseOption_eq_map {α β : Type} (f : α → Option β) (g : α → β) :
    ∀ l : List α, (∀ x ∈ l, f x = some (g x)) → traverseOption f l = some (l.map g) := by
  intro l
  induction l with
  | nil => intro _; rfl
  | cons a as ih =>
    intro h
    simp only [traverseOption]
    rw [h a (List.mem_cons_self a as), ih (fun x hx => h x (List.mem_cons_of_mem a hx))]
    rfl

theorem mem_insertSorted (x y : String) :
    ∀ l : List String, (y ∈ insertSorted x l ↔ y = x ∨ y ∈ l) := by
  intro l
  induction l with
  | nil => simp [insertSorted]
  | cons a as ih =>
    simp only [insertSorted]
    by_cases h : strLe x a
    · rw [if_pos h]
      simp [List.mem_cons]
    · rw [if_neg h]
      simp only [List.mem_cons, ih]
      tauto

theorem mem_sortStrings (y : String) :
    ∀ l : List String, (y ∈ sortStrings l ↔ y ∈ l) := by
  intro l
  induction l with
  | nil => simp [sortStrings]
  | cons a as ih =>
    have h1 : sortStrings (a :: as) = insertSorted a (sortStrings as) := rfl
    rw [h1, mem_insertSorted]
    simp [List.mem_cons, ih]

theorem mem_npUnique (y : String) (l : List String) : y ∈ npUnique l ↔ y ∈ l := by
  unfold npUnique
  rw [mem_sortStrings, List.mem_dedup]

theorem leLookup_eq_none (classes : List String) (c : String) (h : c ∉ classes) :
    leLookup classes c = none := by
  induction classes with
  | nil => rfl
  | cons a as ih =>
    have ha : ¬ (a = c) := fun hac => h (hac ▸ List.mem_cons_self a as)
    have has : c ∉ as := fun hmem => h (List.mem_cons_of_mem a hmem)
    simp [leLookup, ha, ih has]

theorem pdStep_nodup (acc : List String) (x : String) (h : acc.Nodup) :
    (pdStep acc x).Nodup := by
  unfold pdStep
  by_cases hx : x ∈ acc
  · rwa [if_pos hx]
  · rw [if_neg hx]
    have h2 : (x :: acc).Nodup := List.nodup_cons.mpr ⟨hx, h⟩
    exact (List.perm_append_singleton x acc).nodup_iff.mpr h2

theorem pdFold_nodup :
    ∀ (l acc : List String), acc.Nodup → (l.foldl pdStep acc).Nodup := by
  intro l
  induction l with
  | nil => intro acc h; simpa using h
  | cons a as ih =>
    intro acc h
    simp only [List.foldl_cons]
    exact ih (pdStep acc a) (pdStep_nodup acc a h)

theorem pdFold_mem :
    ∀ (l acc : List String) (y : String), (y ∈ l.foldl pdStep acc ↔ y ∈ acc ∨ y ∈ l) := by
  intro l
  induction l with
  | nil => intro acc y; simp
  | cons a as ih =>
    intro acc y
    simp only [List.foldl_cons]
    rw [ih]
    unfold pdStep
    by_cases ha : a ∈ acc
    · rw [if_pos ha]
      simp only [List.mem_cons]
      constructor
      · rintro (h | h)
        · exact Or.inl h
        · exact Or.inr (Or.inr h)
      · rintro (h | h | h)
        · exact Or.inl h
        · exact Or.inl (h ▸ ha)
        · exact Or.inr h
    · rw [if_neg ha]
      simp only [List.mem_append, List.mem_singleton, List.mem_cons]
      tauto

theorem pdUnique_nodup (l : List String) : (pdUnique l).Nodup :=
  pdFold_nodup l [] List.nodup_nil

theorem mem_pdUnique (l : List String) (y : String) : y ∈ pdUnique l ↔ y ∈ l := by
  unfold pdUnique
  rw [pdFold_mem]
  simp

theorem clamp01_nonneg (v : ℚ) : 0 ≤ clamp01 v := le_max_left 0 _

theorem clamp01_le_one (v : ℚ) : clamp01 v ≤ 1 :=
  max_le (by norm_num) (min_le_right v 1)

theorem clamp01_of_mem (v : ℚ) (h0 : 0 ≤ v) (h1 : v ≤ 1) : clamp01 v = v := by
  unfold clamp01
  rw [min_eq_left h1, max_eq_right h0]

theorem clamp01_idem (v : ℚ) : clamp01 (clamp01 v) = clamp01 v :=
  clamp01_of_mem _ (clamp01_nonneg v) (clamp01_le_one v)

theorem clampBox_idem (b : PyBox) : clampBox (clampBox b) = clampBox b := by
  cases b <;> simp [clampBox, clamp01_idem]

theorem clamp_length (bs : List PyBox) :
    (clamp_bbox_coordinates bs).length = bs.length := by
  simp [clamp_bbox_coordinates]

/-- C3: `clamp_bbox_coordinates` is idempotent, length-preserving, every
output coordinate lies in `[0, 1]`, and at every index the optional
trailing class id and the tuple length (the shape) are unchanged. -/
theorem C3_clamp (bs : List PyBox) :
    clamp_bbox_coordinates (clamp_bbox_coordinates bs) = clamp_bbox_coordinates bs
    ∧ (clamp_bbox_coordinates bs).length = bs.length
    ∧ (∀ b ∈ clamp_bbox_coordinates bs, ∀ c ∈ b.coords, 0 ≤ c ∧ c ≤ 1)
    ∧ ∀ i : Nat,
        ((clamp_bbox_coordinates bs)[i]?).map PyBox.classId? = (bs[i]?).map PyBox.classId?
        ∧ ((clamp_bbox_coordinates bs)[i]?).map PyBox.pyLen = (bs[i]?).map PyBox.pyLen := by
  refine ⟨?_, clamp_length bs, ?_, ?_⟩
  · unfold clamp_bbox_coordinates
    rw [List.map_map]
    exact map_congr_mem _ _ _ (fun b _ => clampBox_idem b)
  · intro b hb
    unfold clamp_bbox_coordinates at hb
    obtain ⟨b0, _, rfl⟩ := List.mem_map.mp hb
    intro c hc
    cases b0 with
    | four p q r t =>
      simp only [clampBox, PyBox.coords, List.mem_cons, List.not_mem_nil, or_false] at hc
      rcases hc with rfl | rfl | rfl | rfl <;> exact ⟨clamp01_nonneg _, clamp01_le_one _⟩
    | five p q r t e =>
      simp only [clampBox, PyBox.coords, List.mem_cons, List.not_mem_nil, or_false] at hc
      rcases hc with rfl | rfl | rfl | rfl <;> exact ⟨clamp01_nonneg _, clamp01_le_one _⟩
  · intro i
    constructor
    · unfold clamp_bbox_coordinates
      rw [List.getElem?_map]
      cases bs[i]? with
      | none => rfl
      | some b => cases b <;> rfl
    · unfold clamp_bbox_coordinates
      rw [List.getElem?_map]
      cases bs[i]? with
      | none => rfl
      | some b => cases b <;> rfl

/-- C6: the length of the dataset is the number of distinct filenames of
the backing table, independent of how many rows share a filename. -/
theorem C6_length_unique (d : PascalDataset) :
    d.len = (d.df.map DFRow.filename).toFinset.card := by
  unfold PascalDataset.len PascalDataset.image_ids
  have h1 : (pdUnique (d.df.map DFRow.filename)).toFinset = (d.df.map DFRow.filename).toFinset := by
    ext y
    simp [List.mem_toFinset, mem_pdUnique]
  rw [← h1]
  exact (List.toFinset_card_of_nodup (pdUnique_nodup _)).symm

theorem convert_rows_eq (docs : List XmlDoc) (dir image_set : String) (enc : EncoderState)
    (t : AnnTable) (e : EncoderState)
    (h : convert_annotations_to_df docs dir image_set enc = some (t, e)) :
    ∃ raw, xml_list docs = some raw ∧ t.rows = raw.map (joinRow dir) := by
  unfold convert_annotations_to_df at h
  split at h
  · exact absurd h (by simp)
  next raw heq =>
    refine ⟨raw, heq, ?_⟩
    split at h
    · split at h
      · exact absurd h (by simp)
      next ords htr =>
        have h2 := Option.some.inj h
        injection h2 with ht he
        rw [← ht]
    · split at h
      · split at h
        · exact absurd h (by simp)
        next ords htr =>
          have h2 := Option.some.inj h
          injection h2 with ht he
          rw [← ht]
      · have h2 := Option.some.inj h
        injection h2 with ht he
        rw [← ht]

theorem convert_train_some (docs : List XmlDoc) (dir : String) (enc0 : EncoderState)
    (t : AnnTable) (e : EncoderState)
    (h : convert_annotations_to_df docs dir "train" enc0 = some (t, e)) :
    e.classes = npUnique (t.rows.map AnnRow.className)
    ∧ ∃ ords, traverseOption (fun r => leLookup e.classes r.className) t.rows = some ords
        ∧ t.labels = some (ords.map (· + 1)) := by
  unfold convert_annotations_to_df at h
  split at h
  · exact absurd h (by simp)
  next raw heq =>
    rw [if_pos rfl] at h
    split at h
    · exact absurd h (by simp)
    next ords htr =>
      have h2 := Option.some.inj h
      injection h2 with ht he
      rw [← ht, ← he]
      exact ⟨rfl, ords, htr, rfl⟩

theorem convert_val_some (docs : List XmlDoc) (dir sv : String) (enc0 : EncoderState)
    (t : AnnTable) (e : EncoderState) (hsv : sv = "val" ∨ sv = "test")
    (h : convert_annotations_to_df docs dir sv enc0 = some (t, e)) :
    e = enc0
    ∧ ∃ ords, traverseOption (fun r => leLookup enc0.classes r.className) t.rows = some ords
        ∧ t.labels = some (ords.map (· + 1)) := by
  unfold convert_annotations_to_df at h
  split at h
  · exact absurd h (by simp)
  next raw heq =>
    have hnt : ¬ (sv = "train") := by rcases hsv with rfl | rfl <;> decide
    rw [if_neg hnt, if_pos hsv] at h
    split at h
    · exact absurd h (by simp)
    next ords htr =>
      have h2 := Option.some.inj h
      injection h2 with ht he
      rw [← ht, ← he]
      exact ⟨rfl, ords, htr, rfl⟩

theorem convert_other_eq (docs : List XmlDoc) (dir s : String) (enc : EncoderState)
    (raw : List AnnRow) (hxl : xml_list docs = some raw)
    (h1 : s ≠ "train") (h2 : s ≠ "val") (h3 : s ≠ "test") :
    convert_annotations_to_df docs dir s enc
      = some ({ rows := raw.map (joinRow dir), labels := none }, enc) := by
  unfold convert_annotations_to_df
  simp only [hxl]
  rw [if_neg h1, if_neg (fun hor => hor.elim h2 h3)]

/-- C9: flattening with any split other than "train", "val" and "test"
succeeds (given the same documents flatten at all), produces a table with
no labels column, leaves the remaining columns exactly as any other
split produces them, and does not touch the encoder state. -/
theorem C9_other_split (docs : List XmlDoc) (dir : String) (enc enc0 : EncoderState)
    (s other : String) (h1 : other ≠ "train") (h2 : other ≠ "val") (h3 : other ≠ "test")
    (t1 : AnnTable) (e1 : EncoderState)
    (hconv : convert_annotations_to_df docs dir s enc0 = some (t1, e1)) :
    convert_annotations_to_df docs dir other enc
      = some ({ rows := t1.rows, labels := none }, enc) := by
  obtain ⟨raw, hxl, hrows⟩ := convert_rows_eq docs dir s enc0 t1 e1 hconv
  rw [convert_other_eq docs dir other enc raw hxl h1 h2 h3, hrows]

/-- C9 witness: flattening the concrete document directory with the
unknown split "trainval" reproduces the rows of the "train" flattening
but without a labels column. -/
theorem C9_witness :
    convert_annotations_to_df [docC4] "d" "trainval" ⟨["seen"]⟩
      = some ({ rows := tC4.rows, labels := none }, ⟨["seen"]⟩) :=
  C9_other_split [docC4] "d" ⟨["seen"]⟩ ⟨[]⟩ "train" "trainval"
    (by decide) (by decide) (by decide) tC4 ⟨["cat", "dog"]⟩ (by decide)

/-- C10: the flattener reads width from the first child of the `size`
element and height from the second child, by position: whatever
elements `c0` and `c1` occupy those positions (their tag names are
unconstrained), every emitted row has `width = c0.text` and
`height = c1.text`. -/
theorem C10_positional (doc : XmlDoc) (c0 c1 : SizeChild) (rest : List SizeChild)
    (hsz : doc.sizeChildren = c0 :: c1 :: rest) :
    docRows doc = some (docRowsMap doc c0 c1) := by
  unfold docRows docRowsMap
  apply traverseOption_eq_map
  intro m _
  simp [hsz]

/-- C10 witness: with `size` children listed as (height 200, width 100),
the emitted row's width is 200 (the first child's value, tagged
"height") and its height is 100. -/
theorem C10_witness :
    docRows docC10 = some [{ filename := "a.jpg", width := 200, height := 100,
                             className := "cat", xmin := 1, ymin := 2, xmax := 3, ymax := 4 }] :=
  C10_positional docC10 ⟨"height", 200⟩ ⟨"width", 100⟩ [] rfl

/-- C4: a document with k objects contributes exactly k rows, each row
carrying the document's filename, the first size child as width and the
second as height; through `convert_annotations_to_df` the filename is
additionally resolved against `image_dir`; a document with zero objects
contributes zero rows. -/
theorem C4_rows (image_dir : String) (doc : XmlDoc) (w h : SizeChild)
    (hw : doc.sizeChildren[0]? = some w) (hh : doc.sizeChildren[1]? = some h) :
    (∃ l, docRows doc = some l ∧ l.length = doc.objects.length
        ∧ ∀ r ∈ l, r.filename = doc.filename ∧ r.width = w.text ∧ r.height = h.text)
    ∧ (∀ (t : AnnTable) (e enc : EncoderState) (s : String),
        convert_annotations_to_df [doc] image_dir s enc = some (t, e) →
          t.rows.length = doc.objects.length
          ∧ ∀ r ∈ t.rows, r.filename = osPathJoin image_dir doc.filename
              ∧ r.width = w.text ∧ r.height = h.text)
    ∧ (∀ doc2 : XmlDoc, doc2.objects = [] → docRows doc2 = some []) := by
  have hdoc : docRows doc = some (docRowsMap doc w h) := by
    unfold docRows docRowsMap
    apply traverseOption_eq_map
    intro m _
    simp [hw, hh]
  refine ⟨⟨docRowsMap doc w h, hdoc, by simp [docRowsMap], ?_⟩, ?_, ?_⟩
  · intro r hr
    obtain ⟨m, hm, rfl⟩ := List.mem_map.mp hr
    exact ⟨rfl, rfl, rfl⟩
  · intro t e enc s hc
    obtain ⟨raw, hxl, hrows⟩ := convert_rows_eq [doc] image_dir s enc t e hc
    have h1 : traverseOption docRows [doc] = some [docRowsMap doc w h] := by
      simp only [traverseOption, hdoc]
    have hxl2 : xml_list [doc] = some (docRowsMap doc w h) := by
      unfold xml_list
      rw [h1]
      simp
    rw [hxl2] at hxl
    have hraw : raw = docRowsMap doc w h := (Option.some.inj hxl).symm
    rw [hraw] at hrows
    constructor
    · rw [hrows]
      simp [docRowsMap]
    · intro r hr
      rw [hrows] at hr
      unfold docRowsMap at hr
      rw [List.map_map] at hr
      obtain ⟨m, hm, rfl⟩ := List.mem_map.mp hr
      exact ⟨rfl, rfl, rfl⟩
  · intro doc2 h0
    unfold docRows
    rw [h0]
    rfl

/-- C4 witness: the theorem applied to the concrete two-object document
(width child 100, height child 200). -/
theorem C4_witness :
    ∃ l, docRows docC4 = some l ∧ l.length = docC4.objects.length
      ∧ ∀ r ∈ l, r.filename = docC4.filename ∧ r.width = (100 : Int) ∧ r.height = (200 : Int) :=
  (C4_rows "d" docC4 ⟨"width", 100⟩ ⟨"height", 200⟩ rfl rfl).1

/-- C5: whenever a labels column is produced (train via `fit` or val/test
via a reused encoder), every label id is at least 1; and a train-split
fit followed by a val/test-split transform assigns the same label id to
rows whose class-name strings coincide across the two tables. -/
theorem C5_label_ids (docsT docsV : List XmlDoc) (dirT dirV : String)
    (enc0 : EncoderState) (t1 t2 : AnnTable) (enc1 enc2 : EncoderState)
    (sv : String) (hsv : sv = "val" ∨ sv = "test")
    (h1 : convert_annotations_to_df docsT dirT "train" enc0 = some (t1, enc1))
    (h2 : convert_annotations_to_df docsV dirV sv enc1 = some (t2, enc2))
    (ls1 ls2 : List Nat) (hl1 : t1.labels = some ls1) (hl2 : t2.labels = some ls2) :
    (∀ v ∈ ls1, 1 ≤ v) ∧ (∀ v ∈ ls2, 1 ≤ v)
    ∧ ∀ i j : Nat, ∀ hi : i < t1.rows.length, ∀ hj : j < t2.rows.length,
        (t1.rows.get ⟨i, hi⟩).className = (t2.rows.get ⟨j, hj⟩).className →
        ls1[i]? = ls2[j]? := by
  obtain ⟨hcs, ords1, htr1, hlab1⟩ := convert_train_some docsT dirT enc0 t1 enc1 h1
  obtain ⟨he, ords2, htr2, hlab2⟩ := convert_val_some docsV dirV sv enc1 t2 enc2 hsv h2
  have hls1 : ls1 = ords1.map (· + 1) := Option.some.inj (hl1.symm.trans hlab1)
  have hls2 : ls2 = ords2.map (· + 1) := Option.some.inj (hl2.symm.trans hlab2)
  refine ⟨?_, ?_, ?_⟩
  · intro v hv
    rw [hls1] at hv
    obtain ⟨o, _, rfl⟩ := List.mem_map.mp hv
    omega
  · intro v hv
    rw [hls2] at hv
    obtain ⟨o, _, rfl⟩ := List.mem_map.mp hv
    omega
  · intro i j hi hj hname
    obtain ⟨x1, y1, hx1, hf1, hy1⟩ := traverseOption_getElem? _ t1.rows ords1 htr1 i hi
    obtain ⟨x2, y2, hx2, hf2, hy2⟩ := traverseOption_getElem? _ t2.rows ords2 htr2 j hj
    have hg1 : t1.rows[i]? = some (t1.rows.get ⟨i, hi⟩) := by
      rw [List.getElem?_eq_getElem hi, List.get_eq_getElem]
    have hg2 : t2.rows[j]? = some (t2.rows.get ⟨j, hj⟩) := by
      rw [List.getElem?_eq_getElem hj, List.get_eq_getElem]
    have hx1e : x1 = t1.rows.get ⟨i, hi⟩ := Option.some.inj (hx1.symm.trans hg1)
    have hx2e : x2 = t2.rows.get ⟨j, hj⟩ := Option.some.inj (hx2.symm.trans hg2)
    have hcls : x1.className = x2.className := by rw [hx1e, hx2e, hname]
    have hf2b : leLookup enc1.classes x1.className = some y2 := by
      rw [hcls]
      exact hf2
    have hy12 : y1 = y2 := Option.some.inj (hf1.symm.trans hf2b)
    rw [hls1, hls2, List.getElem?_map, List.getElem?_map, hy1, hy2, hy12]

/-- C5 witness: fitting on a cat/dog training document gives labels 1
and 2; transforming a val document referencing "cat" gives label 1, the
same ordinal the train table assigned to "cat". -/
theorem C5_witness :
    convert_annotations_to_df [docC4] "d" "train" ⟨[]⟩ = some (tC4, ⟨["cat", "dog"]⟩)
    ∧ convert_annotations_to_df [docV5] "d" "val" ⟨["cat", "dog"]⟩ = some (tV5, ⟨["cat", "dog"]⟩)
    ∧ ((∀ v ∈ ([1, 2] : List Nat), 1 ≤ v) ∧ (∀ v ∈ ([1] : List Nat), 1 ≤ v)
       ∧ ∀ i j : Nat, ∀ hi : i < tC4.rows.length, ∀ hj : j < tV5.rows.length,
           (tC4.rows.get ⟨i, hi⟩).className = (tV5.rows.get ⟨j, hj⟩).className →
           ([1, 2] : List Nat)[i]? = ([1] : List Nat)[j]?) := by
  refine ⟨by decide, by decide, ?_⟩
  exact C5_label_ids [docC4] [docV5] "d" "d" ⟨[]⟩ tC4 tV5 ⟨["cat", "dog"]⟩ ⟨["cat", "dog"]⟩
    "val" (Or.inl rfl) (by decide) (by decide) [1, 2] [1] rfl rfl

/-- C8: flattening the val or test split fails outright (no table is
produced, the call returns the error value) as soon as some row's class
name did not occur among the class names of the train-split table the
encoder was fitted on. -/
theorem C8_unseen (docsT docsV : List XmlDoc) (dirT dirV : String) (enc0 : EncoderState)
    (t1 : AnnTable) (enc1 : EncoderState)
    (htr : convert_annotations_to_df docsT dirT "train" enc0 = some (t1, enc1))
    (sv : String) (hsv : sv = "val" ∨ sv = "test")
    (rawV : List AnnRow) (hraw : xml_list docsV = some rawV)
    (r : AnnRow) (hr : r ∈ rawV)
    (hunseen : ∀ rt ∈ t1.rows, rt.className ≠ r.className) :
    convert_annotations_to_df docsV dirV sv enc1 = none := by
  obtain ⟨hcs, _, _, _⟩ := convert_train_some docsT dirT enc0 t1 enc1 htr
  have hnotmem : r.className ∉ enc1.classes := by
    rw [hcs]
    intro hmem
    rw [mem_npUnique] at hmem
    obtain ⟨rt, hrt, heq⟩ := List.mem_map.mp hmem
    exact hunseen rt hrt heq
  have hnone : leLookup enc1.classes ((joinRow dirV r).className) = none :=
    leLookup_eq_none _ _ hnotmem
  unfold convert_annotations_to_df
  simp only [hraw]
  have hnt : ¬ (sv = "train") := by rcases hsv with rfl | rfl <;> decide
  rw [if_neg hnt, if_pos hsv]
  simp only [traverseOption_eq_none (fun rr => leLookup enc1.classes rr.className)
    (rawV.map (joinRow dirV)) (List.mem_map_of_mem (joinRow dirV) hr) hnone]

/-- C8 witness: after fitting on a train table that only knows "cat",
flattening a val document referencing "zebra" produces no table. -/
theorem C8_witness : convert_annotations_to_df [docV8] "d" "val" ⟨["cat"]⟩ = none :=
  C8_unseen [docT8] [docV8] "d" "d" ⟨[]⟩ tT8 ⟨["cat"]⟩ (by decide) "val" (Or.inl rfl)
    [rawV8] (by decide) rawV8 (by decide) (by decide)

theorem recordsArea_eq (rs : List DFRow) :
    recordsArea rs = rs.map (fun r => (r.ymax - r.ymin) * (r.xmax - r.xmin)) := by
  unfold recordsArea recordsBoxes
  rw [List.map_map]
  rfl

/-- C2 counterexample: in the concrete dataset one of the two raw boxes
fails the `[0, 1]` pre-filter (so one box is dropped), yet the label
list `get` hands to the transform still has both labels, and with the
echo transform the returned sample carries both labels next to a single
box: the labels are not dropped in lockstep with the boxes. -/
theorem C2_counterexample :
    (preFiltered (dC2.records "a.jpg")).length = 1
    ∧ (recordsLabels (dC2.records "a.jpg")).length = 2
    ∧ dC2.getItem unitRead tfEcho 0 = some (GetResult.ok sC2)
    ∧ sC2.target.labels = [7, 8] ∧ sC2.target.boxes.length = 1 := by
  refine ⟨by decide, by decide, ?_, by decide, by decide⟩
  norm_num [PascalDataset.getItem, PascalDataset.image_ids, pdUnique, pdStep,
    PascalDataset.records, recordsBoxes, recordsArea, recordsLabels, recordsIscrowd,
    preFiltered, tfEcho, dC2, sC2, clamp_bbox_coordinates, clampBox, clamp01,
    is_bbox_valid, List.filter, List.foldl, List.replicate]

/-- C2 (amended): before the transform is invoked, every raw box whose
four pixel-space coordinates do not all lie in `[0, 1]` is dropped, but
the class labels are NOT dropped in lockstep: the label list passed to
the transform, like the area and iscrowd sequences, is unfiltered and
keeps the full original per-image row count. -/
theorem C2_prefilter (d : PascalDataset) (image_id : String) :
    (∀ b : Box4, b ∈ preFiltered (d.records image_id) ↔
        b ∈ recordsBoxes (d.records image_id)
        ∧ (0 ≤ b.xmin ∧ b.xmin ≤ 1 ∧ 0 ≤ b.ymin ∧ b.ymin ≤ 1
           ∧ 0 ≤ b.xmax ∧ b.xmax ≤ 1 ∧ 0 ≤ b.ymax ∧ b.ymax ≤ 1))
    ∧ (recordsLabels (d.records image_id)).length = (d.records image_id).length
    ∧ (recordsArea (d.records image_id)).length = (d.records image_id).length
    ∧ (recordsIscrowd (d.records image_id)).length = (d.records image_id).length := by
  refine ⟨fun b => ?_, by simp [recordsLabels], by simp [recordsArea, recordsBoxes],
    by simp [recordsIscrowd]⟩
  unfold preFiltered
  rw [List.mem_filter]
  unfold is_bbox_valid
  simp [decide_eq_true_eq]

/-- C7: for every index that resolves and every sample that is not
skipped, the reported area list is computed from the raw pre-transform
pixel-space coordinates of all records of the image (height times
width, equally width times height), independent of the transform. -/
theorem C7_area {Img : Type} (d : PascalDataset) (imread : String → Img)
    (tfms : Img → List Box4 → List Int → Img × List Box4 × List Int)
    (index : Nat) (image_id : String)
    (hid : d.image_ids[index]? = some image_id)
    (s : Sample Img) (h : d.getItem imread tfms index = some (GetResult.ok s)) :
    s.target.area = (d.records image_id).map (fun r => (r.ymax - r.ymin) * (r.xmax - r.xmin))
    ∧ s.target.area = (d.records image_id).map (fun r => (r.xmax - r.xmin) * (r.ymax - r.ymin)) := by
  have harea : s.target.area = recordsArea (d.records image_id) := by
    simp only [PascalDataset.getItem, hid] at h
    split at h
    · exact absurd (Option.some.inj h) (fun hh => GetResult.noConfusion hh)
    · have h2 := Option.some.inj h
      injection h2 with h3
      rw [← h3]
  refine ⟨harea.trans (recordsArea_eq _), harea.trans ((recordsArea_eq _).trans ?_)⟩
  exact map_congr_mem _ _ _ (fun r _ => mul_comm _ _)

/-- C7 witness: the theorem applied to the concrete one-box dataset:
the box (10,10,50,50) is reported with area 1600 even though the
pre-filter removed it before the transform ever saw it. -/
theorem C7_witness :
    dC7.getItem unitRead tfEcho 0 = some (GetResult.ok sC7)
    ∧ sC7.target.area
        = (dC7.records "a.jpg").map (fun r => (r.ymax - r.ymin) * (r.xmax - r.xmin))
    ∧ sC7.target.area = [(1600 : ℚ)] := by
  have h : dC7.getItem unitRead tfEcho 0 = some (GetResult.ok sC7) := by
    norm_num [PascalDataset.getItem, PascalDataset.image_ids, pdUnique, pdStep,
      PascalDataset.records, recordsBoxes, recordsArea, recordsLabels, recordsIscrowd,
      preFiltered, tfEcho, dC7, sC7, clamp_bbox_coordinates, clampBox, clamp01,
      is_bbox_valid, List.filter, List.foldl, List.replicate]
  exact ⟨h, (C7_area dC7 unitRead tfEcho 0 "a.jpg" (by decide) sC7 h).1, by decide⟩

/-- C1 counterexample: the transform receives two valid boxes but keeps
only one (itself valid); the count of valid output boxes (1) is less
than the count of boxes given as input to the transform (2), yet
`get` does not return the skip sentinel, because the code compares
against the transform's output count. -/
theorem C1_counterexample :
    (preFiltered (dC1.records "a.jpg")).length = 2
    ∧ ((tfDrop () (preFiltered (dC1.records "a.jpg"))
          (recordsLabels (dC1.records "a.jpg"))).2.1.filter is_bbox_valid).length = 1
    ∧ dC1.getItem unitRead tfDrop 0 ≠ some GetResult.skip := by
  refine ⟨by decide, by decide, by decide⟩

/-- C1 (amended): `get` applies the `[0, 1]` validity filter to the
transform's output boxes and returns the skip sentinel exactly when the
count of valid output boxes is less than the count of the transform's
OUTPUT boxes (not of its input boxes); otherwise it returns a sample
whose boxes have that full output count and whose labels are exactly
the transform's output labels. -/
theorem C1_skip_policy {Img : Type} (d : PascalDataset) (imread : String → Img)
    (tfms : Img → List Box4 → List Int → Img × List Box4 × List Int)
    (index : Nat) (image_id : String)
    (hid : d.image_ids[index]? = some image_id)
    (im2 : Img) (tb : List Box4) (cl2 : List Int)
    (htf : tfms (imread image_id) (preFiltered (d.records image_id))
        (recordsLabels (d.records image_id)) = (im2, tb, cl2)) :
    ((tb.filter is_bbox_valid).length < tb.length
      ↔ d.getItem imread tfms index = some GetResult.skip)
    ∧ ∀ s : Sample Img, d.getItem imread tfms index = some (GetResult.ok s) →
        s.target.boxes.length = tb.length ∧ s.target.labels = cl2 := by
  have hbase : d.getItem imread tfms index =
      (if (tb.filter is_bbox_valid).length ≠ tb.length then some GetResult.skip
       else some (GetResult.ok
        { image := im2
          target :=
            { image_id := (index : Int)
              boxes := clamp_bbox_coordinates
                ((tb.filter is_bbox_valid).map (fun b => PyBox.four b.xmin b.ymin b.xmax b.ymax))
              labels := cl2
              area := recordsArea (d.records image_id)
              iscrowd := recordsIscrowd (d.records image_id) }
          image_idx := (index : Int) })) := by
    simp only [PascalDataset.getItem, hid, htf]
  by_cases hc : (tb.filter is_bbox_valid).length = tb.length
  · have hres : d.getItem imread tfms index = some (GetResult.ok
        { image := im2
          target :=
            { image_id := (index : Int)
              boxes := clamp_bbox_coordinates
                ((tb.filter is_bbox_valid).map (fun b => PyBox.four b.xmin b.ymin b.xmax b.ymax))
              labels := cl2
              area := recordsArea (d.records image_id)
              iscrowd := recordsIscrowd (d.records image_id) }
          image_idx := (index : Int) }) := by
      rw [hbase, if_neg (fun hne => hne hc)]
    constructor
    · constructor
      · intro hlt
        exact absurd hc (Nat.ne_of_lt hlt)
      · intro hskip
        rw [hres] at hskip
        exact absurd (Option.some.inj hskip) (fun hh => GetResult.noConfusion hh)
    · intro s hs
      rw [hres] at hs
      have h2 := Option.some.inj hs
      injection h2 with h3
      rw [← h3]
      refine ⟨?_, rfl⟩
      simp [clamp_length, hc]
  · have hres : d.getItem imread tfms index = some GetResult.skip := by
      rw [hbase, if_pos hc]
    refine ⟨⟨fun _ => hres, fun _ => lt_of_le_of_ne (List.length_filter_le _ _) hc⟩, ?_⟩
    intro s hs
    rw [hres] at hs
    exact absurd (Option.some.inj hs) (fun hh => GetResult.noConfusion hh)

/-- C1 witness: the amended theorem applied to the concrete dataset and
the box-dropping transform; the single output box is valid, so no skip,
and the sample keeps the transform's two output labels. -/
theorem C1_witness :
    ((([(⟨0, 0, 1, 1⟩ : Box4)] : List Box4).filter is_bbox_valid).length
        < ([(⟨0, 0, 1, 1⟩ : Box4)] : List Box4).length
      ↔ dC1.getItem unitRead tfDrop 0 = some GetResult.skip)
    ∧ ∀ s : Sample Unit, dC1.getItem unitRead tfDrop 0 = some (GetResult.ok s) →
        s.target.boxes.length = ([(⟨0, 0, 1, 1⟩ : Box4)] : List Box4).length
        ∧ s.target.labels = [1, 2] :=
  C1_skip_policy dC1 unitRead tfDrop 0 "a.jpg" (by decide) () [⟨0, 0, 1, 1⟩] [1, 2] (by decide)
